import Mathlib

/-!
Verification of the `collection` package of kolosys/atomic.

The Go `Collection[K, V]` wraps a `map[K]V` behind a reader/writer lock.
We embed it shallowly and sequentially: the map together with its current
iteration ("snapshot") order is an association list with at most one entry
per key; a mutating method becomes a function returning the new contents of
the receiver.  Go map iteration order is unspecified, so the list order
stands for whatever order the current snapshot produced; every property we
prove is stated relative to that snapshot, exactly as the specification
phrases it.  Locking itself is sequentialised away: each Go method is one
atomic step here.
-/

set_option maxRecDepth 4000
set_option linter.dupNamespace false
set_option linter.unusedSectionVars false

namespace collection

/-- Keep is used for merge operations to indicate whether to keep a value
and what value to keep (Go struct `Keep[V]` with fields `Keep`, `Value`). -/
structure Keep (V : Type) : Type where
  Keep : Bool
  Value : V

/-- Comparator is a function that compares two values and their keys,
returning -1, 0, or 1. -/
def Comparator (K V : Type) : Type := V → V → K → K → Int

/-- The contents of a Go `Collection[K, V]`: the backing `map[K]V` together
with its current iteration order, as an association list.  The Go map
invariant (at most one entry per key) is `(c.items.map Prod.fst).Nodup`,
assumed explicitly by the theorems that need it. -/
structure Collection (K V : Type) : Type where
  items : List (K × V)

variable {K V O R : Type}

/-- Go map lookup `c.items[key]` on the association-list model: the entry
for `key`, if present. -/
def lookupItems [DecidableEq K] : List (K × V) → K → Option V
  | [], _ => none
  | p :: rest, key => if p.1 = key then some p.2 else lookupItems rest key

namespace Collection

/-- New creates a new Collection (empty map). -/
def New : Collection K V := ⟨[]⟩

/-- Get retrieves an item from the collection; `some v` models `(v, true)`,
`none` models `(zero, false)`. -/
def Get [DecidableEq K] (c : Collection K V) (key : K) : Option V :=
  lookupItems c.items key

/-- Has checks if a key exists in the collection. -/
def Has [DecidableEq K] (c : Collection K V) (key : K) : Bool :=
  (c.Get key).isSome

/-- Size returns the number of items in the collection (`len(c.items)`). -/
def Size (c : Collection K V) : Nat := c.items.length

/-- keysUnlocked returns the keys in the current snapshot order. -/
def keysUnlocked (c : Collection K V) : List K := c.items.map Prod.fst

/-- Set adds or updates an item: the Go map assignment `c.items[key] = value`.
An existing entry is overwritten in place (its snapshot position is kept);
a new key is appended to the snapshot. -/
def Set [DecidableEq K] (c : Collection K V) (key : K) (value : V) :
    Collection K V :=
  match c.Get key with
  | some _ => ⟨c.items.map fun p => if p.1 = key then (key, value) else p⟩
  | none => ⟨c.items ++ [(key, value)]⟩

/-- Clone creates a shallow copy of the collection. -/
def Clone (c : Collection K V) : Collection K V := ⟨c.items⟩

/-- Ensure obtains the value for the given key if it exists, otherwise sets
and returns the value provided by the default value generator.  The source
re-checks presence after running the generator (double-checked locking);
sequentially, with a pure generator, the re-check sees the same state.
Returns the value together with the new contents of the receiver. -/
def Ensure [DecidableEq K] (c : Collection K V) (key : K)
    (defaultValueGenerator : K → Collection K V → V) : V × Collection K V :=
  match c.Get key with
  | some val => (val, c)
  | none =>
    let d := defaultValueGenerator key c
    match c.Get key with
    | some val => (val, c)
    | none => (d, c.Set key d)

/-- Union returns a new collection containing the items where the key is
present in either of the collections: clone the receiver, then add each of
the other's entries whose key is not already present. -/
def Union [DecidableEq K] (c other : Collection K V) : Collection K V :=
  other.items.foldl
    (fun res kv => if (res.Get kv.1).isSome then res else res.Set kv.1 kv.2)
    c.Clone

/-- Intersection returns a new collection containing the items of the
receiver whose key is also present in the other collection. -/
def Intersection [DecidableEq K] (c : Collection K V) (other : Collection K O) :
    Collection K V :=
  c.items.foldl
    (fun res kv => if (other.Get kv.1).isSome then res.Set kv.1 kv.2 else res)
    New

mutual

/-- First returns the first value(s) in the collection; this models the
call `First(n)` with an explicit amount (`none` is Go `nil`, `some l` the
slice `l`; the no-argument single-value form is not needed here).  The
source returns `nil` on an empty snapshot, `nil` for `n = 0`, delegates a
negative amount to `Last(-n)`, returns every value when `n` reaches the
size, and otherwise the first `n` snapshot values. -/
def First (c : Collection K V) (n : Int) : Option (List V) :=
  if c.keysUnlocked.isEmpty then none
  else if n = 0 then none
  else if n < 0 then c.Last (-n)
  else if (c.keysUnlocked.length : Int) ≤ n then some (c.items.map Prod.snd)
  else some ((c.items.map Prod.snd).take n.toNat)
termination_by (if n < 0 then 1 else 0)
decreasing_by all_goals (split <;> omega)

/-- Last returns the last value(s) in the collection; same conventions as
`First`, except that `n = 0` yields the empty slice `[]V{}` (checked after
the negative-amount delegation, as in the source). -/
def Last (c : Collection K V) (n : Int) : Option (List V) :=
  if c.keysUnlocked.isEmpty then none
  else if n < 0 then c.First (-n)
  else if n = 0 then some []
  else if (c.keysUnlocked.length : Int) ≤ n then some (c.items.map Prod.snd)
  else some ((c.items.map Prod.snd).drop (c.items.length - n.toNat))
termination_by (if n < 0 then 1 else 0)
decreasing_by all_goals (split <;> omega)

end

/-- At returns the value at a given index of the key snapshot, allowing for
positive and negative integers (`c.items[keys[index]]` is the index-th
snapshot value). -/
def At (c : Collection K V) (index : Int) : Option V :=
  let keys := c.keysUnlocked
  let idx := if index < 0 then index + keys.length else index
  if idx < 0 ∨ (keys.length : Int) ≤ idx then none
  else (c.items.map Prod.snd)[idx.toNat]?

/-- KeyAt returns the key at a given index, allowing for positive and
negative integers. -/
def KeyAt (c : Collection K V) (index : Int) : Option K :=
  let keys := c.keysUnlocked
  let idx := if index < 0 then index + keys.length else index
  if idx < 0 ∨ (keys.length : Int) ≤ idx then none
  else keys[idx.toNat]?

/-- Reverse reverses the order of the collection in place: reverse the key
snapshot and rebuild the storage by assigning `newItems[k] = c.items[k]`
along it (the lookup never misses; the `none` arm only totalises it). -/
def Reverse [DecidableEq K] (c : Collection K V) : Collection K V :=
  (c.keysUnlocked.reverse).foldl
    (fun m k =>
      match c.Get k with
      | some v => m.Set k v
      | none => m)
    New

/-- Sort sorts the items of a collection in place and returns it: the
source stably sorts the key snapshot with `sort.SliceStable` and the
comparator's `< 0` test, then rebuilds the storage in that order; here the
entry pairs are sorted stably, keeping `p` before `q` unless the comparator
orders `q` strictly below `p`. -/
def Sort' (c : Collection K V) (compare : Comparator K V) : Collection K V :=
  ⟨c.items.mergeSort fun p q => !(decide (compare q.2 p.2 q.1 p.1 < 0))⟩

/-- ToReversed returns a new collection with the items in reverse order:
`c.Clone().Reverse()`.  The second component is the receiver's contents
when the call completes (state-passing convention): `Reverse` runs on the
clone, and nothing assigns to the receiver. -/
def ToReversed [DecidableEq K] (c : Collection K V) :
    Collection K V × Collection K V :=
  (c.Clone.Reverse, c)

/-- ToSorted returns a shallow copy of the collection with the items
sorted: `c.Clone().Sort(compare)`.  Second component as in `ToReversed`.
(`Sort` is spelled `Sort'` because `Sort` is reserved in Lean.) -/
def ToSorted [DecidableEq K] (c : Collection K V) (compare : Comparator K V) :
    Collection K V × Collection K V :=
  (c.Clone.Sort' compare, c)

end Collection

variable {Item : Type}

/-- Merge merges two collections together into a new collection: for each
key of either operand (collected, without duplicates, in some order),
dispatch on membership and insert the Keep-decision's value iff its flag is
set. -/
def MergeCollection [DecidableEq K] (c : Collection K V) (other : Collection K O)
    (whenInSelf : V → K → Keep R) (whenInOther : O → K → Keep R)
    (whenInBoth : V → O → K → Keep R) : Collection K R :=
  ((c.keysUnlocked ++ other.keysUnlocked).dedup).foldl
    (fun res k =>
      match c.Get k, other.Get k with
      | some v, some o =>
        let keep := whenInBoth v o k
        if keep.Keep then res.Set k keep.Value else res
      | some v, none =>
        let keep := whenInSelf v k
        if keep.Keep then res.Set k keep.Value else res
      | none, some o =>
        let keep := whenInOther o k
        if keep.Keep then res.Set k keep.Value else res
      | none, none => res)
    Collection.New

/-- Specification helper for the Merge loop body: what one iteration at key
`k` does to the result's binding for `k`, as a function of the operands'
membership and the Keep-decision (`prev` is the binding before the
iteration). -/
def mergeUpd [DecidableEq K] (c : Collection K V) (other : Collection K O)
    (whenInSelf : V → K → Keep R) (whenInOther : O → K → Keep R)
    (whenInBoth : V → O → K → Keep R) (k : K) (prev : Option R) : Option R :=
  match c.Get k, other.Get k with
  | some v, some o =>
    if (whenInBoth v o k).Keep then some (whenInBoth v o k).Value else prev
  | some v, none =>
    if (whenInSelf v k).Keep then some ((whenInSelf v k).Value) else prev
  | none, some o =>
    if (whenInOther o k).Keep then some ((whenInOther o k).Value) else prev
  | none, none => prev

/-- The loop of CombineEntries: insert each (key, value) entry left to
right, combining with the already-stored value on a repeated key. -/
def combineLoop [DecidableEq K] (combine : V → V → K → V) :
    List (K × V) → Collection K V → Collection K V
  | [], coll => coll
  | e :: rest, coll =>
    match coll.Get e.1 with
    | some old => combineLoop combine rest (coll.Set e.1 (combine old e.2 e.1))
    | none => combineLoop combine rest (coll.Set e.1 e.2)

/-- CombineEntries creates a Collection from a list of entries (modelled
with the declared key/value types; the source's runtime type assertions on
`[2]any` pairs are the caller's contract and out of scope). -/
def CombineEntries [DecidableEq K] (entries : List (K × V))
    (combine : V → V → K → V) : Collection K V :=
  combineLoop combine entries Collection.New

/-- The loop of GroupBy: `for i, item := range items`, appending each item
to the group selected by `keySelector(item, i)` (a missing group is the
empty slice). -/
def groupLoop [DecidableEq K] (keySelector : Item → Nat → K) :
    List Item → Nat → Collection K (List Item) → Collection K (List Item)
  | [], _, res => res
  | item :: rest, i, res =>
    groupLoop keySelector rest (i + 1)
      (res.Set (keySelector item i)
        (((res.Get (keySelector item i)).getD []) ++ [item]))

/-- GroupBy groups items by a key selector function. -/
def GroupBy [DecidableEq K] (items : List Item)
    (keySelector : Item → Nat → K) : Collection K (List Item) :=
  groupLoop keySelector items 0 Collection.New

/-- Specification helper: the elements of a list paired with their
zero-based positions, starting from `n`. -/
def indexed {α : Type} : Nat → List α → List (Nat × α)
  | _, [] => []
  | n, a :: rest => (n, a) :: indexed (n + 1) rest

/-! ### Value universe for `DefaultSort` -/

/-- The Go dynamic values relevant to `DefaultSort`: the `any` parameter is
either a string or some other kind; we carry strings and (64-bit) integers,
which suffice for the claim. -/
inductive GoValue : Type where
  | str : String → GoValue
  | int : Int → GoValue
deriving DecidableEq

/-- toString attempts to convert a value to string for sorting:
`reflect.ValueOf(v).String()`.  Go's `reflect.Value.String` returns the
underlying string when the value's kind is `String` and, unlike the other
getters, does not panic otherwise: it returns the placeholder
`"<T Value>"` for every other kind — for an `int` value, `"<int Value>"`. -/
def toStr : GoValue → String
  | GoValue.str s => s
  | GoValue.int _ => "<int Value>"

/-- DefaultSort compares the `toStr` images of the two values. -/
def DefaultSort (firstValue secondValue : GoValue) (_ _ : K) : Int :=
  let x := toStr firstValue
  let y := toStr secondValue
  if x < y then -1
  else if y < x then 1
  else 0

/-! ### Concrete collections used by the witnesses -/

/-- Witness container `{a: 1, b: 2}`. -/
def wAB : Collection String Int := ⟨[("a", 1), ("b", 2)]⟩

/-- Witness container `{b: 5, c: 6}`. -/
def wBC : Collection String Int := ⟨[("b", 5), ("c", 6)]⟩

/-- Scenario container `A = {x: 1, y: 2}` of the Merge scenario. -/
def wXY : Collection String Int := ⟨[("x", 1), ("y", 2)]⟩

/-- Scenario container `B = {y: 20, z: 30}` of the Merge scenario. -/
def wYZ : Collection String Int := ⟨[("y", 20), ("z", 30)]⟩

/-! ### Basic lemmas about the model -/

section Lemmas

variable [DecidableEq K]

theorem get_def (c : Collection K V) (k : K) :
    c.Get k = lookupItems c.items k := rfl

theorem lookupItems_append (l₁ l₂ : List (K × V)) (k : K) :
    lookupItems (l₁ ++ l₂) k =
      ((lookupItems l₁ k).orElse fun _ => lookupItems l₂ k) := by
  induction l₁ with
  | nil => simp [lookupItems]
  | cons p rest ih =>
    by_cases h : p.1 = k <;> simp [lookupItems, h, ih]

theorem lookupItems_map_replace (l : List (K × V)) (k k' : K) (v : V) :
    lookupItems (l.map fun p => if p.1 = k then (k, v) else p) k' =
      if k' = k then (lookupItems l k).map (fun _ => v)
      else lookupItems l k' := by
  induction l with
  | nil => simp [lookupItems]
  | cons p rest ih =>
    by_cases hp : p.1 = k
    · by_cases hk : k' = k
      · subst hk
        simp [lookupItems, hp]
      · have hkk : ¬(k = k') := fun h => hk h.symm
        have hpk : ¬(p.1 = k') := by rw [hp]; exact hkk
        simp [lookupItems, hp, hk, hkk, hpk, ih]
    · by_cases hq : p.1 = k'
      · have hk : ¬(k' = k) := by
          intro h
          rw [h] at hq
          exact hp hq
        simp [lookupItems, hp, hq, hk]
      · simp [lookupItems, hp, hq, ih]

theorem set_of_absent (c : Collection K V) (k : K) (v : V)
    (h : c.Get k = none) : (c.Set k v).items = c.items ++ [(k, v)] := by
  unfold Collection.Set
  rw [h]

/-- The fundamental Set/Get law: `Get` after `Set` reads the written value
at the written key and is unchanged elsewhere. -/
theorem get_set (c : Collection K V) (k k' : K) (v : V) :
    (c.Set k v).Get k' = if k' = k then some v else c.Get k' := by
  unfold Collection.Set
  rcases ho : c.Get k with _ | w
  · have ho' : lookupItems c.items k = none := ho
    show lookupItems (c.items ++ [(k, v)]) k' = _
    rw [lookupItems_append]
    by_cases hk : k' = k
    · subst hk
      simp [ho', lookupItems]
    · have hkk : ¬(k = k') := fun h => hk h.symm
      simp only [get_def, lookupItems, hkk, if_neg, if_false]
      rcases hx : lookupItems c.items k' with _ | u <;> simp [hk, hkk, lookupItems]
  · have ho' : lookupItems c.items k = some w := ho
    show lookupItems (c.items.map fun p => if p.1 = k then (k, v) else p) k' = _
    rw [lookupItems_map_replace]
    by_cases hk : k' = k
    · subst hk
      simp [ho']
    · simp [hk, get_def]

theorem get_set_self (c : Collection K V) (k : K) (v : V) :
    (c.Set k v).Get k = some v := by
  simp [get_set]

/-- A key is absent from the map exactly when it is absent from the
snapshot key list. -/
theorem get_eq_none_iff (c : Collection K V) (k : K) :
    c.Get k = none ↔ k ∉ c.keysUnlocked := by
  show lookupItems c.items k = none ↔ k ∉ c.items.map Prod.fst
  induction c.items with
  | nil => simp [lookupItems]
  | cons p rest ih =>
    by_cases h : p.1 = k
    · simp [lookupItems, h]
    · have h' : ¬(k = p.1) := fun hh => h hh.symm
      simp [lookupItems, h, h', ih]

theorem isSome_get_eq_mem (c : Collection K V) (k : K) :
    (c.Get k).isSome = decide (k ∈ c.items.map Prod.fst) := by
  rcases ho : c.Get k with _ | w
  · have hm := (get_eq_none_iff c k).mp ho
    simp [Collection.keysUnlocked] at hm
    simp [hm]
  · have hmem : k ∈ c.items.map Prod.fst := by
      by_contra hk
      have := (get_eq_none_iff c k).mpr hk
      rw [ho] at this
      exact Option.noConfusion this
    simp [hmem]

theorem has_iff_mem_keys (c : Collection K V) (k : K) :
    c.Has k = true ↔ k ∈ c.keysUnlocked := by
  show (c.Get k).isSome = true ↔ _
  rw [isSome_get_eq_mem]
  simp [Collection.keysUnlocked]

end Lemmas

/-! ### Fold characterizations of Union and Intersection -/

section SetAlgebra

variable [DecidableEq K]

/-- Lookup through the Union loop: the receiver's binding wins, the other
collection fills the gaps. -/
theorem get_unionFold (bs : List (K × V)) (res : Collection K V) (k : K) :
    (bs.foldl
        (fun r kv => if (r.Get kv.1).isSome then r else r.Set kv.1 kv.2)
        res).Get k
      = ((res.Get k).orElse fun _ => lookupItems bs k) := by
  induction bs generalizing res with
  | nil =>
    cases h : res.Get k <;> simp [lookupItems, h]
  | cons kv rest ih =>
    simp only [List.foldl_cons]
    by_cases h : (res.Get kv.1).isSome
    · rw [if_pos h, ih]
      by_cases hk : kv.1 = k
      · subst hk
        rcases ho : res.Get kv.1 with _ | w
        · rw [ho] at h
          simp at h
        · simp [lookupItems, ho]
      · simp [lookupItems, hk]
    · rw [if_neg h, ih]
      have ho : res.Get kv.1 = none := by
        rcases hx : res.Get kv.1 with _ | w
        · rfl
        · rw [hx] at h
          simp at h
      rw [get_set]
      by_cases hk : k = kv.1
      · subst hk
        simp [lookupItems, ho]
      · have hk' : ¬(kv.1 = k) := fun hh => hk hh.symm
        simp [lookupItems, hk, hk']

/-- With distinct keys in the loop's input, the Union loop appends exactly
the other collection's entries whose key the receiver lacks. -/
theorem unionFold_items (bs : List (K × V)) (res : Collection K V)
    (hb : (bs.map Prod.fst).Nodup) :
    (bs.foldl
        (fun r kv => if (r.Get kv.1).isSome then r else r.Set kv.1 kv.2)
        res).items
      = res.items ++ bs.filter fun kv => !(res.Get kv.1).isSome := by
  induction bs generalizing res with
  | nil => simp
  | cons kv rest ih =>
    simp only [List.map_cons, List.nodup_cons] at hb
    obtain ⟨hk, hrest⟩ := hb
    simp only [List.foldl_cons]
    by_cases h : (res.Get kv.1).isSome
    · rw [if_pos h, ih res hrest, List.filter_cons]
      simp [h]
    · have ho : res.Get kv.1 = none := by
        rcases hx : res.Get kv.1 with _ | w
        · rfl
        · rw [hx] at h
          simp at h
      rw [if_neg h, ih _ hrest, set_of_absent _ _ _ ho, List.filter_cons]
      have hcong : (rest.filter fun q => !((res.Set kv.1 kv.2).Get q.1).isSome)
          = rest.filter fun q => !(res.Get q.1).isSome := by
        apply List.filter_congr
        intro q hq
        have hne : ¬(q.1 = kv.1) := by
          intro he
          apply hk
          rw [← he]
          exact List.mem_map_of_mem Prod.fst hq
        rw [get_set, if_neg hne]
      rw [hcong]
      simp [h]

/-- With distinct keys in the loop's input and all of them absent from the
accumulator, the Intersection loop appends exactly the receiver's entries
whose key the other collection has. -/
theorem interFold_items (B : Collection K O) (as : List (K × V))
    (res : Collection K V) (ha : (as.map Prod.fst).Nodup)
    (hres : ∀ kv ∈ as, res.Get kv.1 = none) :
    (as.foldl
        (fun r kv => if (B.Get kv.1).isSome then r.Set kv.1 kv.2 else r)
        res).items
      = res.items ++ as.filter fun kv => (B.Get kv.1).isSome := by
  induction as generalizing res with
  | nil => simp
  | cons kv rest ih =>
    simp only [List.map_cons, List.nodup_cons] at ha
    obtain ⟨hk, hrest⟩ := ha
    simp only [List.foldl_cons]
    have hmemres : ∀ q ∈ rest, res.Get q.1 = none := fun q hq =>
      hres q (List.mem_cons_of_mem _ hq)
    by_cases h : (B.Get kv.1).isSome
    · have ho : res.Get kv.1 = none := hres kv (List.mem_cons_self _ _)
      rw [if_pos h, ih _ hrest ?side, set_of_absent _ _ _ ho, List.filter_cons]
      · simp [h]
      case side =>
        intro q hq
        rw [get_set]
        have hne : ¬(q.1 = kv.1) := by
          intro he
          apply hk
          rw [← he]
          exact List.mem_map_of_mem Prod.fst hq
        rw [if_neg hne]
        exact hmemres q hq
    · rw [if_neg h, ih _ hrest hmemres, List.filter_cons]
      simp [h]

theorem Union_items (A B : Collection K V)
    (hb : (B.items.map Prod.fst).Nodup) :
    (A.Union B).items
      = A.items ++ B.items.filter fun kv => !(A.Get kv.1).isSome :=
  unionFold_items B.items A.Clone hb

theorem Intersection_items (A : Collection K V) (B : Collection K O)
    (ha : (A.items.map Prod.fst).Nodup) :
    (A.Intersection B).items
      = A.items.filter fun kv => (B.Get kv.1).isSome := by
  have h := interFold_items B A.items Collection.New ha
    (fun kv _ => rfl)
  simpa using h

end SetAlgebra

/-! ### Counting helpers -/

section Counting

variable [DecidableEq K]

theorem length_filter_add_length_not {α : Type} (l : List α) (p : α → Bool) :
    (l.filter p).length + (l.filter fun x => !(p x)).length = l.length := by
  induction l with
  | nil => rfl
  | cons a rest ih =>
    by_cases h : p a <;> simp [h, ih] <;> omega

theorem length_filter_fst (l : List (K × V)) (p : K → Bool) :
    ((l.map Prod.fst).filter p).length = (l.filter fun kv => p kv.1).length := by
  induction l with
  | nil => rfl
  | cons a rest ih =>
    by_cases h : p a.1 <;> simp [h, ih]

theorem length_filter_mem_comm (la lb : List K) (ha : la.Nodup)
    (hb : lb.Nodup) :
    (la.filter fun x => decide (x ∈ lb)).length
      = (lb.filter fun x => decide (x ∈ la)).length := by
  have h1 : ∀ (l₁ l₂ : List K), l₁.Nodup →
      (l₁.filter fun x => decide (x ∈ l₂)).length
        = (l₁.toFinset ∩ l₂.toFinset).card := by
    intro l₁ l₂ h
    have hnd : (l₁.filter fun x => decide (x ∈ l₂)).Nodup := h.filter _
    rw [← List.toFinset_card_of_nodup hnd]
    congr 1
    ext a
    simp [List.mem_filter]
  rw [h1 la lb ha, h1 lb la hb, Finset.inter_comm]

end Counting

/-! ### Loop characterizations for Merge, CombineEntries and GroupBy -/

section Loops

variable [DecidableEq K]

/-- One Merge-loop iteration at key `k'` leaves the binding of any other
key unchanged. -/
theorem get_mergeStep_ne (c : Collection K V) (other : Collection K O)
    (wS : V → K → Keep R) (wO : O → K → Keep R) (wB : V → O → K → Keep R)
    (res : Collection K R) (k' k : K) (hne : ¬(k = k')) :
    ((match c.Get k', other.Get k' with
      | some v, some o =>
        let keep := wB v o k'
        if keep.Keep then res.Set k' keep.Value else res
      | some v, none =>
        let keep := wS v k'
        if keep.Keep then res.Set k' keep.Value else res
      | none, some o =>
        let keep := wO o k'
        if keep.Keep then res.Set k' keep.Value else res
      | none, none => res) : Collection K R).Get k = res.Get k := by
  rcases c.Get k' with _ | v <;> rcases other.Get k' with _ | o
  · rfl
  · by_cases hkeep : (wO o k').Keep <;> simp [hkeep, get_set, hne]
  · by_cases hkeep : (wS v k').Keep <;> simp [hkeep, get_set, hne]
  · by_cases hkeep : (wB v o k').Keep <;> simp [hkeep, get_set, hne]

/-- One Merge-loop iteration at key `k` updates the binding of `k` exactly
as `mergeUpd` says. -/
theorem get_mergeStep_self (c : Collection K V) (other : Collection K O)
    (wS : V → K → Keep R) (wO : O → K → Keep R) (wB : V → O → K → Keep R)
    (res : Collection K R) (k : K) :
    ((match c.Get k, other.Get k with
      | some v, some o =>
        let keep := wB v o k
        if keep.Keep then res.Set k keep.Value else res
      | some v, none =>
        let keep := wS v k
        if keep.Keep then res.Set k keep.Value else res
      | none, some o =>
        let keep := wO o k
        if keep.Keep then res.Set k keep.Value else res
      | none, none => res) : Collection K R).Get k
      = mergeUpd c other wS wO wB k (res.Get k) := by
  unfold mergeUpd
  rcases c.Get k with _ | v <;> rcases other.Get k with _ | o
  · rfl
  · by_cases hkeep : (wO o k).Keep <;> simp [hkeep, get_set_self]
  · by_cases hkeep : (wS v k).Keep <;> simp [hkeep, get_set_self]
  · by_cases hkeep : (wB v o k).Keep <;> simp [hkeep, get_set_self]

/-- The Merge loop over a duplicate-free key list applies `mergeUpd` to the
keys it visits and touches nothing else. -/
theorem get_mergeFold (c : Collection K V) (other : Collection K O)
    (wS : V → K → Keep R) (wO : O → K → Keep R) (wB : V → O → K → Keep R)
    (ks : List K) (res : Collection K R) (k : K) (hnd : ks.Nodup) :
    (ks.foldl
        (fun res k =>
          match c.Get k, other.Get k with
          | some v, some o =>
            let keep := wB v o k
            if keep.Keep then res.Set k keep.Value else res
          | some v, none =>
            let keep := wS v k
            if keep.Keep then res.Set k keep.Value else res
          | none, some o =>
            let keep := wO o k
            if keep.Keep then res.Set k keep.Value else res
          | none, none => res)
        res).Get k
      = if k ∈ ks then mergeUpd c other wS wO wB k (res.Get k)
        else res.Get k := by
  induction ks generalizing res with
  | nil => simp
  | cons k' rest ih =>
    simp only [List.nodup_cons] at hnd
    obtain ⟨hk', hrest⟩ := hnd
    simp only [List.foldl_cons]
    by_cases hkk : k = k'
    · subst hkk
      rw [ih _ hrest, if_neg hk', if_pos (List.mem_cons_self _ _)]
      exact get_mergeStep_self c other wS wO wB res k
    · rw [ih _ hrest, get_mergeStep_ne c other wS wO wB res k' k hkk]
      by_cases hm : k ∈ rest
      · rw [if_pos hm, if_pos (List.mem_cons_of_mem _ hm)]
      · have hmc : k ∉ k' :: rest := by simp [List.mem_cons, hkk, hm]
        rw [if_neg hm, if_neg hmc]

/-- The CombineEntries loop: the final binding of `k` folds `combine` left
to right over the values of the entries whose key is `k`, starting from the
accumulator's binding (or the first such value when the accumulator lacks
`k`). -/
theorem get_combineLoop (combine : V → V → K → V)
    (entries : List (K × V)) (coll : Collection K V) (k : K) :
    (combineLoop combine entries coll).Get k =
      match coll.Get k,
          (entries.filter fun e => decide (e.1 = k)).map Prod.snd with
      | none, [] => none
      | none, v :: vs => some (vs.foldl (fun a b => combine a b k) v)
      | some g, l => some (l.foldl (fun a b => combine a b k) g) := by
  induction entries generalizing coll with
  | nil => rcases hc : coll.Get k with _ | g <;> simp [combineLoop, hc]
  | cons e rest ih =>
    by_cases he : e.1 = k
    · subst he
      rcases hc : coll.Get e.1 with _ | old
      · simp only [combineLoop, hc]
        rw [ih]
        rw [get_set_self]
        simp [List.filter_cons]
      · simp only [combineLoop, hc]
        rw [ih]
        rw [get_set_self]
        simp [List.filter_cons]
    · have hne : ¬(k = e.1) := fun hh => he hh.symm
      rcases hc : coll.Get e.1 with _ | old
      · simp only [combineLoop, hc]
        rw [ih, get_set, if_neg hne]
        simp [List.filter_cons, he]
      · simp only [combineLoop, hc]
        rw [ih, get_set, if_neg hne]
        simp [List.filter_cons, he]

/-- The GroupBy loop: the final group of `k` is the group already in the
accumulator extended, in order, with exactly those remaining items whose
selector key (computed at the item's running index) is `k`. -/
theorem get_groupLoop {Item : Type} (sel : Item → Nat → K)
    (items : List Item) (n : Nat) (res : Collection K (List Item)) (k : K) :
    (groupLoop sel items n res).Get k =
      match res.Get k,
          ((indexed n items).filter fun p => decide (sel p.2 p.1 = k)).map
            Prod.snd with
      | none, [] => none
      | none, l => some l
      | some g, l => some (g ++ l) := by
  induction items generalizing n res with
  | nil => rcases hr : res.Get k with _ | g <;> simp [groupLoop, indexed, hr]
  | cons item rest ih =>
    simp only [groupLoop, indexed]
    by_cases he : sel item n = k
    · subst he
      rw [ih]
      rw [get_set_self]
      rcases hr : res.Get (sel item n) with _ | g
      · simp [hr, List.filter_cons]
      · simp [hr, List.filter_cons]
    · have hne : ¬(k = sel item n) := fun hh => he hh.symm
      rw [ih, get_set, if_neg hne]
      simp [List.filter_cons, he]

end Loops

/-! ### Positional access helpers -/

section Positional

variable [DecidableEq K]

theorem lookupItems_of_nodup (l : List (K × V))
    (hnd : (l.map Prod.fst).Nodup) (m : Nat) (k : K) (v : V)
    (hk : (l.map Prod.fst)[m]? = some k)
    (hv : (l.map Prod.snd)[m]? = some v) :
    lookupItems l k = some v := by
  induction l generalizing m with
  | nil => simp at hk
  | cons p rest ih =>
    simp only [List.map_cons, List.nodup_cons] at hnd
    obtain ⟨hp, hrest⟩ := hnd
    cases m with
    | zero =>
      simp only [List.map_cons, List.getElem?_cons_zero, Option.some_inj]
        at hk hv
      simp [lookupItems, hk, hv]
    | succ m' =>
      simp only [List.map_cons, List.getElem?_cons_succ] at hk hv
      have hkm : k ∈ rest.map Prod.fst := by
        have := List.getElem?_eq_some_iff.mp hk
        obtain ⟨hlt, hget⟩ := this
        rw [← hget]
        exact List.getElem_mem hlt
      have hne : ¬(p.1 = k) := fun he => hp (he ▸ hkm)
      simp only [lookupItems, hne, if_false, if_neg hne]
      exact ih hrest m' hk hv

theorem isSome_At (c : Collection K V) (i : Int) :
    (c.At i).isSome = true ↔
      (0 ≤ (if i < 0 then i + (c.Size : Int) else i) ∧
        (if i < 0 then i + (c.Size : Int) else i) < (c.Size : Int)) := by
  unfold Collection.At
  simp only [Collection.keysUnlocked, Collection.Size, List.length_map]
  by_cases h : ((if i < 0 then i + (c.items.length : Int) else i) < 0 ∨
      (c.items.length : Int) ≤ (if i < 0 then i + (c.items.length : Int) else i))
  · rw [if_pos h]
    constructor
    · intro hx
      simp at hx
    · rcases h with h | h
      · exact fun hc => absurd hc.1 (by omega)
      · exact fun hc => absurd hc.2 (by omega)
  · rw [if_neg h]
    push_neg at h
    obtain ⟨h0, hlt⟩ := h
    have hm : (if i < 0 then i + (c.items.length : Int) else i).toNat
        < (c.items.map Prod.snd).length := by
      rw [List.length_map]
      omega
    rw [List.getElem?_eq_getElem hm]
    simp only [Option.isSome_some, true_iff]
    exact ⟨h0, hlt⟩

theorem isSome_KeyAt (c : Collection K V) (i : Int) :
    (c.KeyAt i).isSome = true ↔
      (0 ≤ (if i < 0 then i + (c.Size : Int) else i) ∧
        (if i < 0 then i + (c.Size : Int) else i) < (c.Size : Int)) := by
  unfold Collection.KeyAt
  simp only [Collection.keysUnlocked, Collection.Size, List.length_map]
  by_cases h : ((if i < 0 then i + (c.items.length : Int) else i) < 0 ∨
      (c.items.length : Int) ≤ (if i < 0 then i + (c.items.length : Int) else i))
  · rw [if_pos h]
    constructor
    · intro hx
      simp at hx
    · rcases h with h | h
      · exact fun hc => absurd hc.1 (by omega)
      · exact fun hc => absurd hc.2 (by omega)
  · rw [if_neg h]
    push_neg at h
    obtain ⟨h0, hlt⟩ := h
    have hm : (if i < 0 then i + (c.items.length : Int) else i).toNat
        < (c.items.map Prod.fst).length := by
      rw [List.length_map]
      omega
    rw [List.getElem?_eq_getElem hm]
    simp only [Option.isSome_some, true_iff]
    exact ⟨h0, hlt⟩

end Positional

/-! ### Claim theorems -/

section Claims

variable [DecidableEq K]

/-- Claim C1: for every container state, key `k` and generator `g`: if `k`
is present with value `v`, `Ensure(k, g)` returns `v` and leaves the
container unchanged — and, as the right-hand side of the equation does not
mention `g`, the generator is not consulted; if `k` is absent, `Ensure`
invokes `g(k, container)` and stores its result under `k`.  In both cases
the returned value is exactly the value stored under `k` in the container
state the call completes with. -/
theorem Ensure_spec (c : Collection K V) (k : K)
    (g : K → Collection K V → V) :
    (c.Ensure k g =
      match c.Get k with
      | some v => (v, c)
      | none => (g k c, c.Set k (g k c))) ∧
    ((c.Ensure k g).2.Get k = some (c.Ensure k g).1) := by
  constructor
  · unfold Collection.Ensure
    rcases h : c.Get k with _ | v
    · simp [get_set_self]
    · simp
  · unfold Collection.Ensure
    rcases h : c.Get k with _ | v
    · simp [get_set_self]
    · simp [h]

/-- Claim C2 fails on the code: at the failing input, the two distinct
integer values 1 and 2 both stringify to the placeholder `"<int Value>"`
(`reflect.Value.String` does not render non-string kinds), so `DefaultSort`
returns 0 — not the nonzero result (-1) that ordering by the decimal string
forms "1" < "2" demands. -/
theorem DefaultSort_int_collapses :
    DefaultSort (GoValue.int 1) (GoValue.int 2) 0 (0 : Nat) = 0 ∧
    toStr (GoValue.int 1) = toStr (GoValue.int 2) ∧
    toStr (GoValue.int 1) = "<int Value>" := by
  refine ⟨?_, rfl, rfl⟩
  simp [DefaultSort, toStr]

/-- Claim C6: `Union(A, B)` contains exactly the keys present in `A` or in
`B`; a key present in `A` keeps `A`'s value (so `A` wins on keys present in
both); a key absent from `A` gets `B`'s binding. -/
theorem Union_spec (A B : Collection K V) (k : K) :
    ((A.Union B).Has k = true ↔ (A.Has k = true ∨ B.Has k = true)) ∧
    (∀ v, A.Get k = some v → (A.Union B).Get k = some v) ∧
    (A.Get k = none → (A.Union B).Get k = B.Get k) := by
  have key : (A.Union B).Get k = ((A.Get k).orElse fun _ => B.Get k) :=
    get_unionFold B.items A.Clone k
  refine ⟨?_, ?_, ?_⟩
  · show ((A.Union B).Get k).isSome = true ↔
      ((A.Get k).isSome = true ∨ (B.Get k).isSome = true)
    rw [key]
    rcases A.Get k with _ | va <;> rcases B.Get k with _ | vb <;>
      simp [Option.orElse]
  · intro v hv
    rw [key, hv]
    rfl
  · intro hv
    rw [key, hv]
    rcases B.Get k with _ | vb <;> rfl

/-- Witness for C6 at `A = {a:1, b:2}`, `B = {b:5, c:6}`: the key `b`,
present in both, keeps `A`'s value 2, and the key `c`, absent from `A`,
gets `B`'s value. -/
theorem Union_spec_witness :
    (wAB.Union wBC).Get "b" = some 2 ∧
    (wAB.Union wBC).Get "c" = wBC.Get "c" :=
  ⟨(Union_spec wAB wBC "b").2.1 2 (by decide),
   (Union_spec wAB wBC "c").2.2 (by decide)⟩

/-- Claim C7: inclusion-exclusion for sizes,
`|A ∪ B| + |A ∩ B| = |A| + |B|`, under the map invariant (each operand's
snapshot has pairwise-distinct keys). -/
theorem union_inter_size (A B : Collection K V)
    (hA : (A.items.map Prod.fst).Nodup) (hB : (B.items.map Prod.fst).Nodup) :
    (A.Union B).Size + (A.Intersection B).Size = A.Size + B.Size := by
  show (A.Union B).items.length + (A.Intersection B).items.length
      = A.items.length + B.items.length
  rw [Union_items A B hB, Intersection_items A B hA, List.length_append]
  have hsplit := length_filter_add_length_not B.items
    (fun kv => (A.Get kv.1).isSome)
  have hsym : (A.items.filter fun kv => (B.Get kv.1).isSome).length
      = (B.items.filter fun kv => (A.Get kv.1).isSome).length := by
    have hA1 : (A.items.filter fun kv => (B.Get kv.1).isSome).length
        = ((A.items.map Prod.fst).filter
            fun x => decide (x ∈ B.items.map Prod.fst)).length := by
      rw [length_filter_fst]
      congr 1
      apply List.filter_congr
      intro q _
      exact isSome_get_eq_mem B q.1
    have hB1 : (B.items.filter fun kv => (A.Get kv.1).isSome).length
        = ((B.items.map Prod.fst).filter
            fun x => decide (x ∈ A.items.map Prod.fst)).length := by
      rw [length_filter_fst]
      congr 1
      apply List.filter_congr
      intro q _
      exact isSome_get_eq_mem A q.1
    rw [hA1, hB1]
    exact length_filter_mem_comm _ _ hA hB
  rw [hsym]
  omega

/-- Witness for C7 at `A = {a:1, b:2}`, `B = {b:5, c:6}`:
both key snapshots are duplicate-free and 3 + 1 = 2 + 2. -/
theorem union_inter_size_witness :
    (wAB.items.map Prod.fst).Nodup ∧ (wBC.items.map Prod.fst).Nodup ∧
    (wAB.Union wBC).Size + (wAB.Intersection wBC).Size
      = wAB.Size + wBC.Size :=
  ⟨by decide, by decide, union_inter_size wAB wBC (by decide) (by decide)⟩

/-- Claim C4: for every key present in `A` or `B`, `MergeCollection`
dispatches on membership — `whenInBoth` on both values when the key is in
both, `whenInSelf` on `A`'s value when only in `A`, `whenInOther` on `B`'s
value when only in `B`; the key is bound in the result to the decision's
value iff the decision's flag is `keep = true`, and keys in neither operand
are absent.  Which function's decision the binding equals also identifies
the single function consulted for that key. -/
theorem MergeCollection_spec (A : Collection K V) (B : Collection K O)
    (wS : V → K → Keep R) (wO : O → K → Keep R) (wB : V → O → K → Keep R)
    (k : K) :
    (MergeCollection A B wS wO wB).Get k =
      match A.Get k, B.Get k with
      | some v, some o =>
        if (wB v o k).Keep then some (wB v o k).Value else none
      | some v, none =>
        if (wS v k).Keep then some ((wS v k).Value) else none
      | none, some o =>
        if (wO o k).Keep then some ((wO o k).Value) else none
      | none, none => none := by
  unfold MergeCollection
  rw [get_mergeFold A B wS wO wB _ _ k (List.nodup_dedup _)]
  by_cases hmem : k ∈ (A.keysUnlocked ++ B.keysUnlocked).dedup
  · rw [if_pos hmem]
    unfold mergeUpd
    rcases A.Get k with _ | v <;> rcases B.Get k with _ | o <;> rfl
  · rw [if_neg hmem]
    rw [List.mem_dedup, List.mem_append] at hmem
    push_neg at hmem
    obtain ⟨hmA, hmB⟩ := hmem
    have h1 : A.Get k = none := (get_eq_none_iff A k).mpr hmA
    have h2 : B.Get k = none := (get_eq_none_iff B k).mpr hmB
    simp [h1, h2]
    rfl

/-- The Merge scenario of the specification:
`Merge(A={x:1,y:2}, B={y:20,z:30}, keep(v), keep(v), keep(a+b))` produces
`{x:1, y:22, z:30}` — proved by evaluation, independently of
`MergeCollection_spec`. -/
theorem MergeCollection_scenario :
    (MergeCollection wXY wYZ (fun v _ => ⟨true, v⟩) (fun o _ => ⟨true, o⟩)
        (fun a b _ => ⟨true, a + b⟩)).Get "x" = some 1 ∧
    (MergeCollection wXY wYZ (fun v _ => ⟨true, v⟩) (fun o _ => ⟨true, o⟩)
        (fun a b _ => ⟨true, a + b⟩)).Get "y" = some 22 ∧
    (MergeCollection wXY wYZ (fun v _ => ⟨true, v⟩) (fun o _ => ⟨true, o⟩)
        (fun a b _ => ⟨true, a + b⟩)).Get "z" = some 30 ∧
    (MergeCollection wXY wYZ (fun v _ => ⟨true, v⟩) (fun o _ => ⟨true, o⟩)
        (fun a b _ => ⟨true, a + b⟩)).Size = 3 := by
  refine ⟨?_, ?_, ?_, ?_⟩ <;> decide

/-- Claim C5: `CombineEntries` binds each key to the left-to-right fold of
`combine` over the values of that key's occurrences, seeded with the first
occurrence (so N occurrences fold through N−1 combine calls); and the
specification's scenario `CombineEntries([(k,5),(k,10),(k,15)], multiply)`
yields 750 for `k`. -/
theorem CombineEntries_spec :
    (∀ (entries : List (K × V)) (combine : V → V → K → V) (k : K),
      (CombineEntries entries combine).Get k =
        match (entries.filter fun e => decide (e.1 = k)).map Prod.snd with
        | [] => none
        | v :: vs => some (vs.foldl (fun a b => combine a b k) v)) ∧
    (CombineEntries [("k", (5 : Int)), ("k", 10), ("k", 15)]
        (fun a b _ => a * b)).Get "k" = some 750 := by
  constructor
  · intro entries combine k
    have h := get_combineLoop combine entries Collection.New k
    have hnew : (Collection.New : Collection K V).Get k = none := rfl
    rw [CombineEntries, h, hnew]
    rcases hl : (entries.filter fun e => decide (e.1 = k)).map Prod.snd
        with _ | ⟨v, vs⟩ <;> simp [hl]
  · decide

/-- Claim C8: `GroupBy` binds a key `k` exactly when some item selects it,
and then to the list of precisely those items `item` whose
`keySelector(item, i)` — evaluated at the item's zero-based position `i` in
the original input — equals `k`, in their original relative order. -/
theorem GroupBy_spec {Item : Type} (items : List Item)
    (keySelector : Item → Nat → K) (k : K) :
    (GroupBy items keySelector).Get k =
      match ((indexed 0 items).filter
          fun p => decide (keySelector p.2 p.1 = k)).map Prod.snd with
      | [] => none
      | l => some l := by
  have h := get_groupLoop keySelector items 0 Collection.New k
  have hnew : (Collection.New : Collection K (List Item)).Get k = none := rfl
  rw [GroupBy, h, hnew]
  rcases hl : ((indexed 0 items).filter
      fun p => decide (keySelector p.2 p.1 = k)).map Prod.snd
      with _ | ⟨a, l⟩ <;> simp [hl]

/-- The GroupBy scenario of the specification:
`GroupBy([1,2,3,4,5,6], even/odd)` yields `{even:[2,4,6], odd:[1,3,5]}` —
proved by evaluation, independently of `GroupBy_spec`. -/
theorem GroupBy_scenario :
    (GroupBy [1, 2, 3, 4, 5, 6]
        (fun (item : Nat) (_ : Nat) =>
          if item % 2 = 0 then "even" else "odd")).Get "even"
      = some [2, 4, 6] ∧
    (GroupBy [1, 2, 3, 4, 5, 6]
        (fun (item : Nat) (_ : Nat) =>
          if item % 2 = 0 then "even" else "odd")).Get "odd"
      = some [1, 3, 5] := by
  refine ⟨?_, ?_⟩ <;> decide

/-- Counterexample to claim C3 as stated: on the nonempty container
`{a:1, b:2}`, `First(0)` is Go `nil` (the no-value result, `none` here) and
in particular is not an empty sequence, while the claim asserts both
`First(0)` and `Last(0)` return an empty sequence. -/
theorem First_zero_counterexample :
    wAB.First 0 = none ∧ wAB.First 0 ≠ some ([] : List Int) := by
  have h : wAB.First 0 = none := by
    unfold Collection.First
    simp [wAB, Collection.keysUnlocked]
  exact ⟨h, by rw [h]; exact fun hc => Option.noConfusion hc⟩

/-- Claim C3 as amended: on an empty container `First(n)` and `Last(n)`
return `nil` for every `n`; on a nonempty container `First(0)` returns
`nil` while `Last(0)` returns an empty sequence, a negative `n` delegates
to the opposite end with magnitude `|n|`, `n` at or beyond the container
size clamps to the full value sequence, and `0 < n ≤ size` yields the first
(resp. last) `n` values of the current key snapshot. -/
theorem First_Last_spec (c : Collection K V) (n : Int) :
    (c.items = [] → c.First n = none ∧ c.Last n = none) ∧
    (c.items ≠ [] →
      (c.First 0 = none ∧ c.Last 0 = some []) ∧
      (n < 0 → c.First n = c.Last (-n) ∧ c.Last n = c.First (-n)) ∧
      ((c.Size : Int) ≤ n →
        c.First n = some (c.items.map Prod.snd) ∧
        c.Last n = some (c.items.map Prod.snd)) ∧
      (0 < n → n ≤ (c.Size : Int) →
        c.First n = some ((c.items.map Prod.snd).take n.toNat) ∧
        c.Last n = some ((c.items.map Prod.snd).drop
          (c.items.length - n.toNat)))) := by
  constructor
  · intro hemp
    have he : c.keysUnlocked.isEmpty = true := by
      simp [Collection.keysUnlocked, hemp]
    constructor
    · unfold Collection.First
      simp [he]
    · unfold Collection.Last
      simp [he]
  · intro hne
    have he : ¬(c.keysUnlocked.isEmpty = true) := by
      simp [Collection.keysUnlocked]
      exact hne
    have hlen : c.keysUnlocked.length = c.Size := by
      simp [Collection.keysUnlocked, Collection.Size]
    have hszpos : 0 < c.Size := by
      cases hitems : c.items with
      | nil => exact absurd hitems hne
      | cons a l => simp [Collection.Size, hitems]
    refine ⟨⟨?_, ?_⟩, ?_, ?_, ?_⟩
    · unfold Collection.First
      simp [he]
    · unfold Collection.Last
      simp [he]
    · intro hn
      have h0 : ¬(n = 0) := by omega
      constructor
      · unfold Collection.First
        simp [he, h0, hn]
      · unfold Collection.Last
        simp [he, h0, hn]
    · intro hn
      have h0 : ¬(n = 0) := by omega
      have hneg : ¬(n < 0) := by omega
      have hle : (c.keysUnlocked.length : Int) ≤ n := by
        rw [hlen]
        exact hn
      constructor
      · unfold Collection.First
        simp [he, h0, hneg, hle]
      · unfold Collection.Last
        simp [he, h0, hneg, hle]
    · intro hn0 hnsize
      have h0 : ¬(n = 0) := by omega
      have hneg : ¬(n < 0) := by omega
      by_cases hle : (c.keysUnlocked.length : Int) ≤ n
      · have hsz : n.toNat = c.items.length := by
          have h1 : (c.Size : Int) ≤ n := by
            rw [← hlen]
            exact hle
          simp only [Collection.Size] at h1 hnsize
          omega
        have htake : (c.items.map Prod.snd).take n.toNat
            = c.items.map Prod.snd := by
          apply List.take_of_length_le
          simp [hsz]
        have hdrop : (c.items.map Prod.snd).drop (c.items.length - n.toNat)
            = c.items.map Prod.snd := by
          rw [hsz, Nat.sub_self, List.drop_zero]
        constructor
        · unfold Collection.First
          simp [he, h0, hneg, hle, htake]
        · unfold Collection.Last
          simp [he, h0, hneg, hle, hdrop]
      · constructor
        · unfold Collection.First
          simp [he, h0, hneg, hle]
        · unfold Collection.Last
          simp [he, h0, hneg, hle]

/-- Witness for the amended C3 at `{a:1, b:2}` and `n = -1`: the container
is nonempty and `-1 < 0`, and the `n = 0` and negative-delegation clauses
follow from the theorem. -/
theorem First_Last_spec_witness :
    wAB.items ≠ [] ∧
    wAB.First 0 = none ∧ wAB.Last 0 = some [] ∧
    wAB.First (-1) = wAB.Last 1 ∧ wAB.Last (-1) = wAB.First 1 := by
  have h := (First_Last_spec wAB (-1)).2 (by decide)
  have hm := h.2.1 (by decide)
  exact ⟨by decide, h.1.1, h.1.2, hm.1, hm.2⟩

/-- Claim C9: `ToSorted` and `ToReversed` never mutate the receiver.  In
the state-passing embedding, a method's effect on the receiver is its
second component: both calls run `Reverse`/`Sort` on the clone only, so the
receiver's contents when the call completes are exactly the contents before
it, entry for entry. -/
theorem ToSorted_ToReversed_frame (c : Collection K V)
    (compare : Comparator K V) :
    (c.ToSorted compare).2 = c ∧ c.ToReversed.2 = c ∧
    (∀ k, (c.ToSorted compare).2.Get k = c.Get k ∧
      c.ToReversed.2.Get k = c.Get k) :=
  ⟨rfl, rfl, fun _ => ⟨rfl, rfl⟩⟩

/-- Claim C10: `At(i)` and `KeyAt(i)` succeed together, exactly when `i` —
after adding the size if negative — lands in `[0, size)`; and on the same
snapshot, under the map invariant, a successful `At(i)` returns precisely
the value the container maps to the key `KeyAt(i)` returns. -/
theorem At_KeyAt_spec (c : Collection K V) (i : Int) :
    ((c.At i).isSome = (c.KeyAt i).isSome) ∧
    ((c.KeyAt i).isSome = true ↔
      (0 ≤ (if i < 0 then i + (c.Size : Int) else i) ∧
        (if i < 0 then i + (c.Size : Int) else i) < (c.Size : Int))) ∧
    ((c.items.map Prod.fst).Nodup →
      ∀ k v, c.KeyAt i = some k → c.At i = some v → c.Get k = some v) := by
  refine ⟨?_, isSome_KeyAt c i, ?_⟩
  · have h1 := isSome_At c i
    have h2 := isSome_KeyAt c i
    exact Bool.eq_iff_iff.mpr (h1.trans h2.symm)
  · intro hnd k v hk hv
    unfold Collection.KeyAt at hk
    unfold Collection.At at hv
    simp only [Collection.keysUnlocked] at hk hv
    by_cases h : ((if i < 0 then i + ((c.items.map Prod.fst).length : Int)
        else i) < 0 ∨
        ((c.items.map Prod.fst).length : Int) ≤
          (if i < 0 then i + ((c.items.map Prod.fst).length : Int) else i))
    · rw [if_pos h] at hk
      exact absurd hk (by simp)
    · rw [if_neg h] at hk hv
      exact lookupItems_of_nodup c.items hnd _ k v hk hv

/-- Witness for C10 at `{a:1, b:2}` and `i = -1`: the key snapshot is
duplicate-free, `KeyAt(-1)` is `b`, `At(-1)` is 2, and the theorem yields
`Get(b) = 2`. -/
theorem At_KeyAt_spec_witness :
    (wAB.items.map Prod.fst).Nodup ∧ wAB.KeyAt (-1) = some "b" ∧
    wAB.At (-1) = some 2 ∧ wAB.Get "b" = some 2 :=
  ⟨by decide, by decide, by decide,
   (At_KeyAt_spec wAB (-1)).2.2 (by decide) "b" 2 (by decide) (by decide)⟩

end Claims

end collection
